import Mathlib

/-!
Shallow embedding of the ProspectSearchAgent prospect-resolution pipeline
(src/src/data_processing/scoring.py, src/src/data_processing/deduplicator.py,
src/src/api_clients/hunter_client.py, src/src/api_clients/smart_enricher.py,
src/src/agent.py), together with theorems settling the specification claims.

Conventions of the embedding:
* Python floats are modelled as exact rationals (ℚ); Python ints as ℤ.
* Python `round(x, 2)` is modelled by half-even rounding on rationals.
* Optional / possibly-absent dict entries are modelled as `Option`;
  Python truthiness of the modelled values is made explicit (`truthyStr`,
  `truthyInt`, `truthyRat`).
* Randomness (`random.randint`, `random.random`, `random.choice`) is
  abstracted behind a `RandomOracle` record, as the spec's design notes
  demand for the estimator policy; theorems quantify over all oracles.
* `thefuzz.fuzz.ratio` (rapidfuzz Indel similarity, rounded) is embedded
  as `fuzzRatio` via the longest-common-subsequence length.
-/

namespace ProspectSearch

/-- Python str.lower (ASCII case folding, which covers all strings in the repo). -/
def pyLower (s : String) : String := String.mk (s.data.map Char.toLower)

/-- Python str.strip with no arguments: remove surrounding whitespace. -/
def pyStrip (s : String) : String :=
  String.mk (((s.data.dropWhile Char.isWhitespace).reverse.dropWhile
    Char.isWhitespace).reverse)

/-- Occurrence of a pattern inside a character list: the pattern is empty,
starts the list, or occurs in its tail. -/
def containsSub : List Char → List Char → Bool
  | _, [] => true
  | [], _ :: _ => false
  | a :: as, p :: ps => List.isPrefixOf (p :: ps) (a :: as) || containsSub as (p :: ps)

/-- Python substring test `pat in s`. -/
def strContains (s pat : String) : Bool := containsSub s.data pat.data

/-- Python str.endswith. -/
def pyEndsWith (s sfx : String) : Bool := List.isSuffixOf sfx.data s.data

/-- Helper of pySplit: accumulate the current word (reversed) while
scanning; whitespace flushes it. -/
def splitWsAux : List Char → List Char → List String
  | [], acc => if acc.isEmpty then [] else [String.mk acc.reverse]
  | c :: cs, acc =>
    if c.isWhitespace then
      if acc.isEmpty then splitWsAux cs []
      else String.mk acc.reverse :: splitWsAux cs []
    else splitWsAux cs (c :: acc)

/-- Python str.split with no arguments: split on whitespace runs,
dropping empty pieces. -/
def pySplit (s : String) : List String := splitWsAux s.data []

/-- Truthiness of an optional string (absent, or present and empty, is falsy). -/
def truthyStr : Option String → Bool
  | none => false
  | some s => !s.isEmpty

/-- Truthiness of an optional integer (absent or zero is falsy). -/
def truthyInt : Option Int → Bool
  | none => false
  | some n => n != 0

/-- Truthiness of an optional rational (absent or zero is falsy). -/
def truthyRat : Option ℚ → Bool
  | none => false
  | some q => q != 0

/-- Half-even rounding of a rational to an integer, as Python round does. -/
def roundHalfEven (q : ℚ) : ℤ :=
  let f : ℤ := ⌊q⌋
  let frac : ℚ := q - f
  if frac < 1/2 then f
  else if 1/2 < frac then f + 1
  else if f % 2 = 0 then f else f + 1

/-- Python `round(q, 2)`: round to two decimal places (half to even). -/
def round2 (q : ℚ) : ℚ := (roundHalfEven (q * 100) : ℚ) / 100

/-- Half-even rounding of the fraction num/den of two naturals, den ≠ 0. -/
def roundHalfEvenNat (num den : Nat) : Nat :=
  let q := num / den
  let r := num % den
  if 2 * r < den then q
  else if den < 2 * r then q + 1
  else if q % 2 = 0 then q else q + 1

/-- Longest common subsequence length of two character lists. -/
def lcsLen : List Char → List Char → Nat
  | [], _ => 0
  | _ :: _, [] => 0
  | a :: as, b :: bs =>
    if a = b then lcsLen as bs + 1
    else max (lcsLen (a :: as) bs) (lcsLen as (b :: bs))
termination_by l1 l2 => l1.length + l2.length

/-- thefuzz fuzz.ratio: 100 * (normalized Indel similarity), rounded to an
integer. The normalized Indel similarity of s1 and s2 equals
2*LCS(s1,s2) / (|s1| + |s2|); two empty strings score 100. -/
def fuzzRatio (s1 s2 : String) : Nat :=
  let total := s1.length + s2.length
  if total = 0 then 100
  else roundHalfEvenNat (200 * lcsLen s1.toList s2.toList) total

/-- A contact record as built by the pipeline (models.py Contact plus the
hunter_verified flag the Hunter client attaches). -/
structure Contact where
  name : String := ""
  title : String := ""
  email : Option String := none
  linkedin : Option String := none
  confidence : ℚ := 0
  hunter_verified : Bool := false
deriving Repr, DecidableEq

/-- The signals dict attached to each company by the SerpApi extractor.
`funding_round` is the only key the extractor does not emit, hence the
only optional one. -/
structure Signals where
  recent_hiring : Bool := false
  new_funding : Bool := false
  funding_amount : ℚ := 0
  funding_round : Option String := none
  job_title : String := ""
  job_posted : String := ""
  work_from_home : Bool := false
deriving Repr, DecidableEq

/-- A company record as it flows through the pipeline stages. -/
structure Company where
  company_name : String
  domain : Option String := none
  industry : String := ""
  employee_count : Option Int := none
  revenue : Option ℚ := none
  location : String := ""
  funding_stage : Option String := none
  tech_stack : List String := []
  contacts : List Contact := []
  signals : Signals := {}
  source : List String := []
  confidence : ℚ := 0
  smart_enriched : Bool := false
deriving Repr, DecidableEq

/-- The signals sub-dict of the ICP configuration. -/
structure ICPSignals where
  funding : Bool := false
  hiring_data_roles : Bool := false
  tech_stack : List String := []
deriving Repr, DecidableEq

/-- The ICP configuration dict consumed by the pipeline. `geography` is
optional so a present-but-empty list is distinguishable from an absent key. -/
structure ICP where
  industry : List String := []
  geography : Option (List String) := none
  employee_count_min : Option Int := none
  employee_count_max : Option Int := none
  revenue_min : Option ℚ := none
  revenue_max : Option ℚ := none
  keywords : List String := []
  signals : ICPSignals := {}
deriving Repr, DecidableEq

/-! ## Confidence scorer (scoring.py) -/

/-- ConfidenceScorer._calculate_industry_match. -/
def _calculate_industry_match (company : Company) (icp_config : ICP) : ℚ :=
  let icp_industries := icp_config.industry
  if icp_industries.isEmpty then 0
  else
    let company_industry := pyLower company.industry
    if company_industry.isEmpty then 0
    else if icp_industries.any (fun t => strContains company_industry (pyLower t)) then 1
    else if icp_industries.any (fun t =>
        (pySplit (pyLower t)).any (fun w => (pySplit company_industry).contains w)) then 1/2
    else 0

/-- ConfidenceScorer._calculate_funding_score. -/
def _calculate_funding_score (company : Company) (icp_config : ICP) : ℚ :=
  if !icp_config.signals.funding then 0
  else
    let signals := company.signals
    if signals.new_funding then
      if 50000000 < signals.funding_amount then 1
      else if 10000000 < signals.funding_amount then 4/5
      else 3/5
    else if truthyStr signals.funding_round then 3/10
    else 0

/-- ConfidenceScorer._calculate_hiring_score. -/
def _calculate_hiring_score (company : Company) (icp_config : ICP) : ℚ :=
  if !icp_config.signals.hiring_data_roles then 0
  else if company.signals.recent_hiring then 1
  else 0

/-- ConfidenceScorer._calculate_employee_score. -/
def _calculate_employee_score (company : Company) (icp_config : ICP) : ℚ :=
  if !truthyInt icp_config.employee_count_min || !truthyInt company.employee_count then 0
  else
    let employee_min : ℚ := (icp_config.employee_count_min.getD 0 : ℤ)
    let employee_count : ℚ := (company.employee_count.getD 0 : ℤ)
    if employee_min ≤ employee_count then 1
    else if employee_min * (4/5) ≤ employee_count then 1/2
    else if employee_min * (1/2) ≤ employee_count then 1/5
    else 0

/-- The per-company body of ConfidenceScorer.calculate_confidence: accumulate
the four weighted sub-scores and store the rounded total in `confidence`. -/
def scoreCompany (company : Company) (icp_config : ICP) : Company :=
  let score : ℚ := 0
  let score := score + _calculate_industry_match company icp_config * (2/5)
  let score := score + _calculate_funding_score company icp_config * (3/10)
  let score := score + _calculate_hiring_score company icp_config * (1/5)
  let score := score + _calculate_employee_score company icp_config * (1/10)
  { company with confidence := round2 score }

/-- Stable descending insertion of a company into a list already sorted by
descending confidence: keep skipping strictly greater entries, so an equal
entry already present stays in front. -/
def insertByConfidence (c : Company) : List Company → List Company
  | [] => [c]
  | d :: ds =>
    if c.confidence < d.confidence then d :: insertByConfidence c ds
    else c :: d :: ds

/-- Stable sort by descending confidence, modelling Python
`sorted(companies, key=lambda x: x["confidence"], reverse=True)` (a stable
descending sort; any two stable descending sorts by the same key agree). -/
def sortByConfidenceDesc : List Company → List Company
  | [] => []
  | c :: cs => insertByConfidence c (sortByConfidenceDesc cs)

/-- ConfidenceScorer.calculate_confidence: score every company, then return
the list sorted by descending confidence. -/
def calculate_confidence (companies : List Company) (icp_config : ICP) : List Company :=
  sortByConfidenceDesc (companies.map (fun c => scoreCompany c icp_config))

/-! ## Hunter client (hunter_client.py) -/

/-- One raw entry of the Hunter domain-search response's emails array.
Every field is read with dict .get and a default, so all are optional. -/
structure RawEmail where
  first_name : Option String := none
  last_name : Option String := none
  position : Option String := none
  value : Option String := none
  linkedin : Option String := none
  confidence : Option Int := none
deriving Repr, DecidableEq

/-- The part of the Hunter response the parser reads:
data.get("data", {}).get("emails", []). -/
structure HunterData where
  emails : List RawEmail := []
deriving Repr, DecidableEq

/-- The contact dict built for one raw Hunter entry. -/
def hunterContactOf (email_data : RawEmail) : Contact :=
  { name := pyStrip (String.append (String.append (email_data.first_name.getD "") " ")
      (email_data.last_name.getD ""))
  , title := email_data.position.getD ""
  , email := some (email_data.value.getD "")
  , linkedin := some (email_data.linkedin.getD "")
  , confidence := (email_data.confidence.getD 0 : ℤ) / 100
  , hunter_verified := true }

/-- The loop body of HunterClient._parse_hunter_contacts: skip the entry
when target titles were supplied and none occurs in the lowered position
text; otherwise build the contact and append it when its email is
non-empty. -/
def hunterParseStep (target_titles : List String) (contacts : List Contact)
    (email_data : RawEmail) : List Contact :=
  let position := pyLower (email_data.position.getD "")
  if !target_titles.isEmpty &&
      !(target_titles.any (fun title => strContains position (pyLower title))) then
    contacts
  else
    let contact := hunterContactOf email_data
    if !(email_data.value.getD "").isEmpty then contacts ++ [contact]
    else contacts

/-- HunterClient._parse_hunter_contacts: filter raw entries by target title
substrings (when target titles were given), transform them, drop entries
with an empty email, and keep only the first 5. -/
def _parse_hunter_contacts (data : HunterData) (target_titles : List String) : List Contact :=
  let contacts := data.emails.foldl (hunterParseStep target_titles) []
  contacts.take 5

/-- The per-company body of HunterClient.enrich_companies_with_contacts:
skip on an invalid domain; otherwise look contacts up and, when any were
found, replace the company's contact list with them. The external lookup
(HTTP + parse, empty on any failure) is a collaborator parameter. -/
def hunterEnrichStep (find_emails : String → List Contact) (company : Company) : Company :=
  let domain := company.domain.getD ""
  if domain.isEmpty || !pyEndsWith domain ".com" then company
  else
    let contacts := find_emails domain
    if !contacts.isEmpty then { company with contacts := contacts }
    else company

/-- HunterClient.enrich_companies_with_contacts over the whole batch. -/
def enrich_companies_with_contacts (find_emails : String → List Contact)
    (companies : List Company) : List Company :=
  companies.map (hunterEnrichStep find_emails)

/-! ## Smart enricher (smart_enricher.py) -/

/-- Seedable source of the pseudo-random draws the estimator makes
(random.randint, random.random, random.choice), per the spec's pluggable
estimator-policy design note. -/
structure RandomOracle where
  randint : Int → Int → Int := fun a _ => a
  random01 : ℚ := 0
  choice : List String → String := fun l => l.headD ""

/-- SmartCompanyEnricher._estimate_employee_count. -/
def _estimate_employee_count (o : RandomOracle) (company_name job_title : String) : Int :=
  if ["corp", "corporation", "inc", "global", "international"].any
      (fun pattern => strContains company_name pattern) then
    o.randint 1000 50000
  else if ["labs", "tech", "io", "startup", "ventures"].any
      (fun pattern => strContains company_name pattern) then
    o.randint 10 200
  else if ["data scientist", "data engineer", "machine learning"].any
      (fun role => strContains job_title role) then
    o.randint 50 1000
  else
    o.randint 50 2000

/-- SmartCompanyEnricher._estimate_revenue. -/
def _estimate_revenue (o : RandomOracle) (employee_count : Int) (company_name : String) : ℚ :=
  let revenue_per_employee : Int :=
    if ["tech", "software", "saas"].any (fun industry => strContains company_name industry) then
      o.randint 200000 500000
    else if ["consulting", "services"].any (fun industry => strContains company_name industry) then
      o.randint 150000 300000
    else
      o.randint 100000 250000
  ((employee_count * revenue_per_employee : Int) : ℚ)

/-- SmartCompanyEnricher._refine_industry. The source iterates a literal
dict in insertion order and returns key.replace("_", " ").title() on the
first keyword hit; the titled keys are inlined here. -/
def _refine_industry (company_name job_title current_industry : String) : String :=
  if ["data scientist", "data engineer", "data analyst", "analytics"].any
      (fun keyword => strContains job_title keyword) then "Data"
  else if ["ai", "machine learning", "deep learning", "llm", "generative ai"].any
      (fun keyword => strContains job_title keyword) then "Ai Ml"
  else if ["software engineer", "developer", "full stack", "frontend", "backend"].any
      (fun keyword => strContains job_title keyword) then "Software"
  else if ["aws", "azure", "gcp", "cloud", "devops"].any
      (fun keyword => strContains job_title keyword) then "Cloud"
  else if ["fintech", "banking", "payments", "financial", "trading"].any
      (fun keyword => strContains job_title keyword) then "Fintech"
  else if ["health", "medical", "pharma", "biotech", "clinical"].any
      (fun keyword => strContains job_title keyword) then "Healthcare"
  else if ["bank", "finance", "capital", "payments"].any
      (fun keyword => strContains company_name keyword) then "FinTech"
  else if ["health", "medical", "care", "pharma"].any
      (fun keyword => strContains company_name keyword) then "Healthcare"
  else if ["media", "entertainment", "streaming"].any
      (fun keyword => strContains company_name keyword) then "Media & Entertainment"
  else if ["retail", "ecommerce", "shop", "store"].any
      (fun keyword => strContains company_name keyword) then "E-commerce"
  else if current_industry.isEmpty then "Technology"
  else current_industry

/-- SmartCompanyEnricher._estimate_funding_stage. -/
def _estimate_funding_stage (o : RandomOracle) (company_name : String)
    (employee_count : Int) : String :=
  if 1000 < employee_count then
    if 3/10 < o.random01 then "Public" else "Series E+"
  else if 500 < employee_count then
    o.choice ["Series D", "Series E", "Private Equity"]
  else if 100 < employee_count then
    o.choice ["Series B", "Series C"]
  else if 50 < employee_count then
    o.choice ["Series A", "Series B"]
  else
    o.choice ["Seed", "Series A", "Bootstrapped"]

/-- SmartCompanyEnricher._infer_tech_stack. -/
def _infer_tech_stack (job_title : String) : List String :=
  let job_lower := pyLower job_title
  let tech_stack : List String := []
  let tech_stack := if ["python", "py"].any (fun lang => strContains job_lower lang) then
      tech_stack ++ ["Python"] else tech_stack
  let tech_stack := if strContains job_lower "java" then
      tech_stack ++ ["Java"] else tech_stack
  let tech_stack := if ["javascript", "js", "node"].any (fun lang => strContains job_lower lang) then
      tech_stack ++ ["JavaScript"] else tech_stack
  let tech_stack := if strContains job_lower "sql" then
      tech_stack ++ ["SQL"] else tech_stack
  let tech_stack := if strContains job_lower "r" then
      tech_stack ++ ["R"] else tech_stack
  let tech_stack := if ["aws", "amazon web services"].any (fun tech => strContains job_lower tech) then
      tech_stack ++ ["AWS"] else tech_stack
  let tech_stack := if strContains job_lower "azure" then
      tech_stack ++ ["Azure"] else tech_stack
  let tech_stack := if ["gcp", "google cloud"].any (fun tech => strContains job_lower tech) then
      tech_stack ++ ["GCP"] else tech_stack
  let tech_stack := if strContains job_lower "snowflake" then
      tech_stack ++ ["Snowflake"] else tech_stack
  let tech_stack := if strContains job_lower "databricks" then
      tech_stack ++ ["Databricks"] else tech_stack
  let tech_stack := if strContains job_lower "spark" then
      tech_stack ++ ["Apache Spark"] else tech_stack
  let tech_stack := if ["docker", "kubernetes", "k8s"].any (fun tech => strContains job_lower tech) then
      tech_stack ++ ["Containers"] else tech_stack
  tech_stack.take 5

/-- The enriched_data dict accumulated by _estimate_from_job_data: a key is
present iff the corresponding Option is some; smart_enriched is always set. -/
structure EnrichedData where
  employee_count : Option Int := none
  revenue : Option ℚ := none
  industry : Option String := none
  funding_stage : Option String := none
  tech_stack : Option (List String) := none
  smart_enriched : Bool := true
deriving Repr, DecidableEq

/-- SmartCompanyEnricher._estimate_from_job_data. -/
def _estimate_from_job_data (o : RandomOracle) (company : Company) : EnrichedData :=
  let company_name := pyLower company.company_name
  let job_title := pyLower company.signals.job_title
  let enriched_data : EnrichedData := {}
  let enriched_data :=
    if !truthyInt company.employee_count then
      { enriched_data with
        employee_count := some (_estimate_employee_count o company_name job_title) }
    else enriched_data
  let enriched_data :=
    if !truthyRat company.revenue then
      let employee_count : Int :=
        if truthyInt enriched_data.employee_count then enriched_data.employee_count.getD 0
        else if truthyInt company.employee_count then company.employee_count.getD 0
        else 100
      { enriched_data with revenue := some (_estimate_revenue o employee_count company_name) }
    else enriched_data
  let current_industry := company.industry
  let enriched_data :=
    if current_industry.isEmpty || current_industry = "Technology" then
      { enriched_data with
        industry := some (_refine_industry company_name job_title current_industry) }
    else enriched_data
  let enriched_data :=
    if !truthyStr company.funding_stage then
      { enriched_data with
        funding_stage := some (_estimate_funding_stage o company_name
          (enriched_data.employee_count.getD 100)) }
    else enriched_data
  let enriched_data :=
    if !job_title.isEmpty then
      { enriched_data with tech_stack := some (_infer_tech_stack job_title) }
    else enriched_data
  { enriched_data with smart_enriched := true }

/-- Python company.update(enriched_data): overwrite exactly the keys the
enriched dict carries. -/
def applyEnriched (company : Company) (d : EnrichedData) : Company :=
  { company with
    employee_count := match d.employee_count with
      | some v => some v
      | none => company.employee_count
    revenue := match d.revenue with
      | some v => some v
      | none => company.revenue
    industry := match d.industry with
      | some v => v
      | none => company.industry
    funding_stage := match d.funding_stage with
      | some v => some v
      | none => company.funding_stage
    tech_stack := match d.tech_stack with
      | some v => v
      | none => company.tech_stack
    smart_enriched := d.smart_enriched }

/-- The per-company body of SmartCompanyEnricher.enrich_companies_batch. -/
def enrichStep (o : RandomOracle) (company : Company) : Company :=
  applyEnriched company (_estimate_from_job_data o company)

/-- SmartCompanyEnricher.enrich_companies_batch. -/
def enrich_companies_batch (o : RandomOracle) (companies : List Company) : List Company :=
  companies.map (enrichStep o)

/-! ## Deduplicator (deduplicator.py) -/

/-- Deduplicator._get_company_key: lowered and stripped domain when truthy,
else lowered and stripped company name. -/
def _get_company_key (company : Company) : String :=
  if truthyStr company.domain then pyStrip (pyLower (company.domain.getD ""))
  else pyStrip (pyLower company.company_name)

/-- Deduplicator._find_similar_company: scan kept records in insertion
order and return the key of the first whose name is ≥ 85 similar. -/
def _find_similar_company (company : Company)
    (existing_companies : List (String × Company)) : Option String :=
  (existing_companies.find? (fun kv =>
      85 ≤ fuzzRatio (pyLower company.company_name) (pyLower kv.2.company_name))).map
    (fun kv => kv.1)

/-- Python dict-update of the signals dict with company2's signals: every
key the extractor emits is overwritten; the optional funding_round key is
overwritten only when company2 carries it. -/
def mergeSignals (s1 s2 : Signals) : Signals :=
  { s2 with funding_round := match s2.funding_round with
      | some r => some r
      | none => s1.funding_round }

/-- Deduplicator._merge_companies: merge company2 into company1. -/
def _merge_companies (company1 company2 : Company) : Company :=
  let merged := company1
  let merged := { merged with source := (company1.source ++ company2.source).dedup }
  let merged := { merged with signals := mergeSignals merged.signals company2.signals }
  let existing_emails := merged.contacts.filterMap (fun contact =>
    match contact.email with
    | some e => if e.isEmpty then none else some e
    | none => none)
  let kept_contacts := company2.contacts.filter (fun contact =>
    match contact.email with
    | some e => !existing_emails.contains e
    | none => true)
  let merged := { merged with contacts := merged.contacts ++ kept_contacts }
  let merged := if !truthyRat merged.revenue && truthyRat company2.revenue then
      { merged with revenue := company2.revenue } else merged
  let merged := if !truthyInt merged.employee_count && truthyInt company2.employee_count then
      { merged with employee_count := company2.employee_count } else merged
  let merged := if !truthyStr merged.funding_stage && truthyStr company2.funding_stage then
      { merged with funding_stage := company2.funding_stage } else merged
  merged

/-- Replacement of the value stored under a key of the (unique-keyed)
insertion-ordered dict, modelled as an association list. -/
def updateValue (key : String) (f : Company → Company)
    (acc : List (String × Company)) : List (String × Company) :=
  acc.map (fun kv => if kv.1 = key then (kv.1, f kv.2) else kv)

/-- The loop body of Deduplicator.deduplicate_companies: an exact key
match merges in place; else a fuzzy name match whose returned key is
truthy merges in place; else the company is appended under its own key.
The `if similar_key:` truthiness test of the source means a fuzzy match
that returns the falsy empty-string key counts as no match and the
company is inserted as new. -/
def dedupStep (acc : List (String × Company)) (company : Company) :
    List (String × Company) :=
  let key := _get_company_key company
  if acc.any (fun kv => kv.1 = key) then
    updateValue key (fun existing => _merge_companies existing company) acc
  else
    let similar_key := _find_similar_company company acc
    if truthyStr similar_key then
      updateValue (similar_key.getD "")
        (fun existing => _merge_companies existing company) acc
    else
      acc ++ [(key, company)]

/-- Deduplicator.deduplicate_companies: fold the records through the dict
and return its values in insertion order. -/
def deduplicate_companies (companies : List Company) : List Company :=
  (companies.foldl dedupStep []).map Prod.snd

/-! ## Agent pipeline (agent.py) -/

/-- The exception raised inside the pipeline's try block that is modelled:
indexing the first element of an empty geography list. -/
inductive PyError where
  | indexError
deriving Repr, DecidableEq

/-- The filter dict built by ProspectSearchAgent._generate_serpapi_filters. -/
structure SerpFilters where
  location : String
  signals : ICPSignals
deriving Repr, DecidableEq

/-- ProspectSearchAgent._generate_serpapi_filters:
icp_config.get("geography", ["USA"])[0] raises IndexError on a present but
empty geography list. -/
def _generate_serpapi_filters (icp_config : ICP) : Except PyError SerpFilters :=
  match icp_config.geography.getD ["USA"] with
  | [] => Except.error PyError.indexError
  | g :: _ => Except.ok { location := g, signals := icp_config.signals }

/-- The external collaborators the pipeline calls (SerpApi search, Hunter
lookup) and the estimator's randomness, all abstracted as parameters. -/
structure Collaborators where
  search_companies : SerpFilters → List Company := fun _ => []
  find_emails : String → List Contact := fun _ => []
  oracle : RandomOracle := {}

/-- ProspectSearchAgent.search_prospects: the staged pipeline inside a
try/except whose handler turns any raised error into an empty result. -/
def search_prospects (collab : Collaborators) (icp_config : ICP) : List Company :=
  match _generate_serpapi_filters icp_config with
  | Except.error _ => []
  | Except.ok serpapi_filters =>
    let companies := collab.search_companies serpapi_filters
    if companies.isEmpty then []
    else
      let companies := enrich_companies_batch collab.oracle companies
      let companies := enrich_companies_with_contacts collab.find_emails companies
      let companies := deduplicate_companies companies
      let companies := calculate_confidence companies icp_config
      sortByConfidenceDesc companies

/-! ## Concrete sample records used by witnesses and counterexamples -/

/-- A contact carrying only an email, for dedup-merge examples. -/
def mkContact (e : String) : Contact := { email := some e }

/-- First record of the merge counterexample: five distinct contacts. -/
def dedupA : Company :=
  { company_name := "A"
  , domain := some "a.com"
  , source := ["job-listing search"]
  , contacts := [mkContact "e1@a.com", mkContact "e2@a.com", mkContact "e3@a.com",
      mkContact "e4@a.com", mkContact "e5@a.com"] }

/-- Second record of the merge counterexample: same key, five more
distinct contacts. -/
def dedupB : Company :=
  { company_name := "B"
  , domain := some "a.com"
  , source := ["job-listing search"]
  , contacts := [mkContact "f1@a.com", mkContact "f2@a.com", mkContact "f3@a.com",
      mkContact "f4@a.com", mkContact "f5@a.com"] }

/-- Merge-witness record A: has revenue and one contact, lacks
employee_count and funding_stage. -/
def mergeA : Company :=
  { company_name := "A"
  , domain := some "a.com"
  , source := ["s1"]
  , revenue := some 5
  , contacts := [mkContact "e@a.com"] }

/-- Merge-witness record B: has revenue, employee_count and funding_stage,
one duplicate contact, one new contact, one contact without email. -/
def mergeB : Company :=
  { company_name := "B"
  , domain := some "a.com"
  , source := ["s2"]
  , revenue := some 7
  , employee_count := some 9
  , funding_stage := some "Seed"
  , contacts := [mkContact "e@a.com", mkContact "f@a.com", { name := "x" }] }

/-- A fully populated record whose job title mentions Python, for the
attribute-estimator frame counterexample. -/
def enrichSample : Company :=
  { company_name := "X"
  , tech_stack := ["Rust"]
  , employee_count := some 7
  , revenue := some 3
  , funding_stage := some "Seed"
  , industry := "FinTech"
  , signals := { job_title := "Python Developer" } }

/-- A three-entry directory response: a matching CTO, a non-matching
intern, and a matching entry without an email. -/
def hunterSample : HunterData :=
  { emails :=
      [ { first_name := some "John", last_name := some "Smith"
        , position := some "CTO of Platform", value := some "john@x.com"
        , confidence := some 80 }
      , { first_name := some "Jane", last_name := some "Doe"
        , position := some "Intern", value := some "jane@x.com"
        , confidence := some 90 }
      , { first_name := some "No", last_name := some "Mail"
        , position := some "VP Engineering", value := some ""
        , confidence := some 70 } ] }

/-- A contact-directory lookup that always finds one contact. -/
def hunterFind : String → List Contact :=
  fun _ => [{ name := "J", email := some "j@x.com" }]

/-- A record whose domain passes the .com gate. -/
def hunterGateOk : Company := { company_name := "Z", domain := some "z.com" }

/-- A record whose domain fails the .com gate. -/
def hunterGateFail : Company := { company_name := "Z", domain := some "z.org" }

/-- Sort stability example: first record with confidence 0.5. -/
def stableA : Company := { company_name := "A", confidence := mkRat 1 2 }

/-- Sort stability example: the record with confidence 0.8. -/
def stableB : Company := { company_name := "B", confidence := mkRat 4 5 }

/-- Sort stability example: second record with confidence 0.5. -/
def stableC : Company := { company_name := "C", confidence := mkRat 1 2 }

/-! ## Helper lemmas on rounding -/

theorem floor_le_roundHalfEven (q : ℚ) : ⌊q⌋ ≤ roundHalfEven q := by
  simp only [roundHalfEven]
  split_ifs <;> omega

theorem roundHalfEven_le_ceil (q : ℚ) : roundHalfEven q ≤ ⌈q⌉ := by
  simp only [roundHalfEven]
  have hfc : ⌊q⌋ ≤ ⌈q⌉ := Int.floor_le_ceil q
  split_ifs with h1 h2 h3
  · exact hfc
  · have hlt : (⌊q⌋ : ℚ) < q := by linarith
    have : ⌊q⌋ < ⌈q⌉ := Int.lt_ceil.mpr hlt
    omega
  · have hlt : (⌊q⌋ : ℚ) < q := by linarith
    have : ⌊q⌋ < ⌈q⌉ := Int.lt_ceil.mpr hlt
    omega
  · have hlt : (⌊q⌋ : ℚ) < q := by linarith
    have : ⌊q⌋ < ⌈q⌉ := Int.lt_ceil.mpr hlt
    omega

theorem round2_bounds (q : ℚ) (h0 : 0 ≤ q) (h1 : q ≤ 1) :
    0 ≤ round2 q ∧ round2 q ≤ 1 := by
  unfold round2
  have hf : (0 : ℤ) ≤ ⌊q * 100⌋ := Int.le_floor.mpr (by push_cast; linarith)
  have hc : ⌈q * 100⌉ ≤ (100 : ℤ) := Int.ceil_le.mpr (by push_cast; linarith)
  have hlo : (0 : ℤ) ≤ roundHalfEven (q * 100) :=
    le_trans hf (floor_le_roundHalfEven (q * 100))
  have hhi : roundHalfEven (q * 100) ≤ (100 : ℤ) :=
    le_trans (roundHalfEven_le_ceil (q * 100)) hc
  have hlo2 : (0 : ℚ) ≤ (roundHalfEven (q * 100) : ℚ) := by exact_mod_cast hlo
  have hhi2 : (roundHalfEven (q * 100) : ℚ) ≤ 100 := by exact_mod_cast hhi
  constructor
  · positivity
  · rw [div_le_one (by norm_num)]
    exact hhi2

theorem industry_match_bounds (company : Company) (icp_config : ICP) :
    0 ≤ _calculate_industry_match company icp_config ∧
      _calculate_industry_match company icp_config ≤ 1 := by
  simp only [_calculate_industry_match]
  split_ifs <;> norm_num

theorem funding_score_bounds (company : Company) (icp_config : ICP) :
    0 ≤ _calculate_funding_score company icp_config ∧
      _calculate_funding_score company icp_config ≤ 1 := by
  simp only [_calculate_funding_score]
  split_ifs <;> norm_num

theorem hiring_score_bounds (company : Company) (icp_config : ICP) :
    0 ≤ _calculate_hiring_score company icp_config ∧
      _calculate_hiring_score company icp_config ≤ 1 := by
  simp only [_calculate_hiring_score]
  split_ifs <;> norm_num

theorem employee_score_bounds (company : Company) (icp_config : ICP) :
    0 ≤ _calculate_employee_score company icp_config ∧
      _calculate_employee_score company icp_config ≤ 1 := by
  simp only [_calculate_employee_score]
  split_ifs <;> norm_num

/-- C1: for every Company record and ICP, the Confidence Scorer sets the
record's confidence to round(0.4*industry_match + 0.3*funding_score +
0.2*hiring_score + 0.1*employee_score, 2 decimals), where each sub-score
lies in [0,1], and therefore the resulting confidence lies in [0,1]. -/
theorem confidence_formula_and_bounded (company : Company) (icp_config : ICP) :
    (scoreCompany company icp_config).confidence =
      round2 ((2/5) * _calculate_industry_match company icp_config
        + (3/10) * _calculate_funding_score company icp_config
        + (1/5) * _calculate_hiring_score company icp_config
        + (1/10) * _calculate_employee_score company icp_config)
    ∧ (0 ≤ _calculate_industry_match company icp_config ∧
        _calculate_industry_match company icp_config ≤ 1)
    ∧ (0 ≤ _calculate_funding_score company icp_config ∧
        _calculate_funding_score company icp_config ≤ 1)
    ∧ (0 ≤ _calculate_hiring_score company icp_config ∧
        _calculate_hiring_score company icp_config ≤ 1)
    ∧ (0 ≤ _calculate_employee_score company icp_config ∧
        _calculate_employee_score company icp_config ≤ 1)
    ∧ 0 ≤ (scoreCompany company icp_config).confidence
    ∧ (scoreCompany company icp_config).confidence ≤ 1 := by
  have hi := industry_match_bounds company icp_config
  have hf := funding_score_bounds company icp_config
  have hh := hiring_score_bounds company icp_config
  have he := employee_score_bounds company icp_config
  have hval : (scoreCompany company icp_config).confidence =
      round2 ((2/5) * _calculate_industry_match company icp_config
        + (3/10) * _calculate_funding_score company icp_config
        + (1/5) * _calculate_hiring_score company icp_config
        + (1/10) * _calculate_employee_score company icp_config) := by
    show round2 _ = round2 _
    congr 1
    ring
  have hbounds := round2_bounds
    ((2/5) * _calculate_industry_match company icp_config
      + (3/10) * _calculate_funding_score company icp_config
      + (1/5) * _calculate_hiring_score company icp_config
      + (1/10) * _calculate_employee_score company icp_config)
    (by linarith [hi.1, hf.1, hh.1, he.1])
    (by linarith [hi.2, hf.2, hh.2, he.2])
  refine ⟨hval, hi, hf, hh, he, ?_, ?_⟩
  · rw [hval]; exact hbounds.1
  · rw [hval]; exact hbounds.2

/-- C9: for a fixed positive ICP employee minimum, the employee score of a
record carrying an employee count is exactly the bucket value (1.0 at or
above the minimum, 0.5 from 80% of it, 0.2 from 50% of it, else 0), is
monotone non-decreasing in the count, and is 0 whenever the ICP carries no
minimum or the record carries no count. -/
theorem employee_score_buckets (emin : ℤ) (hpos : 0 < emin) (icp_config : ICP)
    (hmin : icp_config.employee_count_min = some emin) :
    (∀ (company : Company) (n : ℤ), company.employee_count = some n →
      _calculate_employee_score company icp_config =
        (if (emin : ℚ) ≤ (n : ℚ) then 1
         else if (emin : ℚ) * (4/5) ≤ (n : ℚ) then 1/2
         else if (emin : ℚ) * (1/2) ≤ (n : ℚ) then 1/5
         else 0))
    ∧ (∀ (c1 c2 : Company) (n1 n2 : ℤ), c1.employee_count = some n1 →
        c2.employee_count = some n2 → n1 ≤ n2 →
        _calculate_employee_score c1 icp_config ≤ _calculate_employee_score c2 icp_config)
    ∧ (∀ company : Company, company.employee_count = none →
        _calculate_employee_score company icp_config = 0)
    ∧ (∀ (icp2 : ICP) (company : Company), icp2.employee_count_min = none →
        _calculate_employee_score company icp2 = 0) := by
  have hposq : (0 : ℚ) < (emin : ℚ) := by exact_mod_cast hpos
  have hbucket : ∀ (company : Company) (n : ℤ), company.employee_count = some n →
      _calculate_employee_score company icp_config =
        (if (emin : ℚ) ≤ (n : ℚ) then 1
         else if (emin : ℚ) * (4/5) ≤ (n : ℚ) then 1/2
         else if (emin : ℚ) * (1/2) ≤ (n : ℚ) then 1/5
         else 0) := by
    intro company n hn
    by_cases hn0 : n = 0
    · subst hn0
      have hz : _calculate_employee_score company icp_config = 0 := by
        simp [_calculate_employee_score, hmin, hn, truthyInt]
      rw [hz]
      split_ifs with ha hb hc
      · push_cast at ha; linarith
      · push_cast at hb; nlinarith
      · push_cast at hc; nlinarith
      · rfl
    · simp only [_calculate_employee_score, hmin, hn, truthyInt]
      have hne : (emin != 0) = true := by
        simp only [bne_iff_ne]
        omega
      have hne2 : (n != 0) = true := by
        simp only [bne_iff_ne]
        exact hn0
      simp [hne, hne2]
  refine ⟨hbucket, ?_, ?_, ?_⟩
  · intro c1 c2 n1 n2 h1 h2 hle
    rw [hbucket c1 n1 h1, hbucket c2 n2 h2]
    have hleq : (n1 : ℚ) ≤ (n2 : ℚ) := by exact_mod_cast hle
    split_ifs <;> (try norm_num) <;> linarith
  · intro company hn
    simp [_calculate_employee_score, hn, truthyInt]
  · intro icp2 company hmin2
    simp [_calculate_employee_score, hmin2, truthyInt]

/-- Witness for C9: with minimum 10 and count 8 (= 80% of the minimum) the
score is exactly 0.5. -/
theorem employee_score_buckets_witness :
    _calculate_employee_score { company_name := "w", employee_count := some 8 }
      { employee_count_min := some 10 } = 1/2 := by
  have h := (employee_score_buckets 10 (by norm_num)
      { employee_count_min := some 10 } rfl).1
    { company_name := "w", employee_count := some 8 } 8 rfl
  rw [h]
  norm_num

/-! ## Sorting lemmas for the scorer -/

theorem insertByConfidence_perm (c : Company) (l : List Company) :
    List.Perm (insertByConfidence c l) (c :: l) := by
  induction l with
  | nil => exact List.Perm.refl [c]
  | cons d ds ih =>
    simp only [insertByConfidence]
    split_ifs with h
    · exact (List.Perm.cons d ih).trans (List.Perm.swap c d ds)
    · exact List.Perm.refl _

theorem sortByConfidenceDesc_perm (l : List Company) :
    List.Perm (sortByConfidenceDesc l) l := by
  induction l with
  | nil => exact List.Perm.refl []
  | cons c cs ih =>
    exact (insertByConfidence_perm c (sortByConfidenceDesc cs)).trans (ih.cons c)

theorem pairwise_insertByConfidence (c : Company) (l : List Company)
    (h : List.Pairwise (fun a b => b.confidence ≤ a.confidence) l) :
    List.Pairwise (fun a b => b.confidence ≤ a.confidence) (insertByConfidence c l) := by
  induction l with
  | nil => simp [insertByConfidence]
  | cons d ds ih =>
    rw [List.pairwise_cons] at h
    simp only [insertByConfidence]
    split_ifs with hcd
    · rw [List.pairwise_cons]
      refine ⟨?_, ih h.2⟩
      intro x hx
      rcases List.mem_cons.mp ((insertByConfidence_perm c ds).mem_iff.mp hx) with hx | hx
      · subst hx
        exact le_of_lt hcd
      · exact h.1 x hx
    · rw [List.pairwise_cons]
      refine ⟨?_, List.pairwise_cons.mpr h⟩
      intro x hx
      rcases List.mem_cons.mp hx with hx | hx
      · subst hx
        linarith
      · exact le_trans (h.1 x hx) (by linarith)

theorem pairwise_sortByConfidenceDesc (l : List Company) :
    List.Pairwise (fun a b => b.confidence ≤ a.confidence) (sortByConfidenceDesc l) := by
  induction l with
  | nil => simp [sortByConfidenceDesc]
  | cons c cs ih => exact pairwise_insertByConfidence c (sortByConfidenceDesc cs) ih

theorem filter_insertByConfidence (q : ℚ) (c : Company) (l : List Company) :
    (insertByConfidence c l).filter (fun r => r.confidence = q) =
      (c :: l).filter (fun r => r.confidence = q) := by
  induction l with
  | nil => rfl
  | cons d ds ih =>
    simp only [insertByConfidence]
    split_ifs with hcd
    · by_cases hcq : c.confidence = q
      · have hdq : ¬ (d.confidence = q) := by
          intro hdq
          rw [hcq] at hcd
          rw [hdq] at hcd
          exact lt_irrefl q hcd
        simp [List.filter_cons, hdq, hcq, ih]
      · simp [List.filter_cons, hcq, ih]
    · rfl

theorem filter_sortByConfidenceDesc (q : ℚ) (l : List Company) :
    (sortByConfidenceDesc l).filter (fun r => r.confidence = q) =
      l.filter (fun r => r.confidence = q) := by
  induction l with
  | nil => rfl
  | cons c cs ih =>
    rw [sortByConfidenceDesc, filter_insertByConfidence]
    simp [List.filter_cons, ih]

/-- C8: the Confidence Scorer returns exactly the records it received with
confidence re-assigned, sorted in descending confidence order, and the sort
is stable (records of equal confidence keep their prior relative order); on
the concrete example with fresh confidences [0.5, 0.8, 0.5] the output
order is [0.8, 0.5 first, 0.5 second]. -/
theorem scorer_sorted_descending_stable (companies : List Company) (icp_config : ICP) :
    List.Perm (calculate_confidence companies icp_config)
      (companies.map (fun c => scoreCompany c icp_config))
    ∧ List.Pairwise (fun a b => b.confidence ≤ a.confidence)
        (calculate_confidence companies icp_config)
    ∧ (∀ q : ℚ, (calculate_confidence companies icp_config).filter
          (fun r => r.confidence = q)
        = (companies.map (fun c => scoreCompany c icp_config)).filter
          (fun r => r.confidence = q))
    ∧ (sortByConfidenceDesc [stableA, stableB, stableC]).map
        (fun c => c.company_name)
      = ["B", "A", "C"] := by
  refine ⟨sortByConfidenceDesc_perm _, pairwise_sortByConfidenceDesc _,
    fun q => filter_sortByConfidenceDesc q _, by decide⟩

/-! ## Deduplicator merge-semantics theorems -/

/-- The non-empty emails of a kept record's contacts, as the merge computes
them. -/
def nonEmptyEmails (company : Company) : List String :=
  company.contacts.filterMap (fun contact =>
    match contact.email with
    | some e => if e.isEmpty then none else some e
    | none => none)

theorem isEmpty_false_of_mem_nonEmptyEmails (company : Company) (e : String)
    (he : e ∈ nonEmptyEmails company) : e.isEmpty = false := by
  simp only [nonEmptyEmails, List.mem_filterMap] at he
  obtain ⟨ct, _, hct⟩ := he
  cases hmail : ct.email with
  | none =>
    rw [hmail] at hct
    cases hct
  | some e2 =>
    rw [hmail] at hct
    by_cases h2 : e2.isEmpty = true
    · simp [h2] at hct
    · simp [h2] at hct
      subst hct
      simp at h2
      simp [h2]

theorem contains_nonEmptyEmails_eq_false (company : Company) (e : String)
    (he : e.isEmpty = true) : (nonEmptyEmails company).contains e = false := by
  by_contra hc
  rw [Bool.not_eq_false] at hc
  have hmem : e ∈ nonEmptyEmails company := by
    simpa using hc
  have := isEmpty_false_of_mem_nonEmptyEmails company e hmem
  rw [he] at this
  cases this

/-- C2: merging record B into kept record A yields: source = the set union
of both sources; contacts = A's contacts followed by every contact of B
whose email is empty/missing or whose non-empty email is not among A's
non-empty contact emails; and for each of revenue, employee_count and
funding_stage, A's value when A's value is non-falsy, else B's value when
B has one. -/
theorem merge_preserves_fields (company1 company2 : Company) :
    (∀ s : String, s ∈ (_merge_companies company1 company2).source ↔
      s ∈ company1.source ∨ s ∈ company2.source)
    ∧ (_merge_companies company1 company2).contacts =
        company1.contacts ++ company2.contacts.filter (fun contact =>
          match contact.email with
          | none => true
          | some e => e.isEmpty || !(nonEmptyEmails company1).contains e)
    ∧ (truthyRat company1.revenue = true →
        (_merge_companies company1 company2).revenue = company1.revenue)
    ∧ (truthyRat company1.revenue = false → truthyRat company2.revenue = true →
        (_merge_companies company1 company2).revenue = company2.revenue)
    ∧ (truthyInt company1.employee_count = true →
        (_merge_companies company1 company2).employee_count = company1.employee_count)
    ∧ (truthyInt company1.employee_count = false → truthyInt company2.employee_count = true →
        (_merge_companies company1 company2).employee_count = company2.employee_count)
    ∧ (truthyStr company1.funding_stage = true →
        (_merge_companies company1 company2).funding_stage = company1.funding_stage)
    ∧ (truthyStr company1.funding_stage = false → truthyStr company2.funding_stage = true →
        (_merge_companies company1 company2).funding_stage = company2.funding_stage) := by
  refine ⟨?_, ?_, ?_, ?_, ?_, ?_, ?_, ?_⟩
  · intro s
    have hsrc : (_merge_companies company1 company2).source =
        (company1.source ++ company2.source).dedup := by
      simp only [_merge_companies]
      split_ifs <;> rfl
    rw [hsrc, List.mem_dedup, List.mem_append]
  · have hcts : (_merge_companies company1 company2).contacts =
        company1.contacts ++ company2.contacts.filter (fun contact =>
          match contact.email with
          | some e => !(nonEmptyEmails company1).contains e
          | none => true) := by
      simp only [_merge_companies, nonEmptyEmails]
      split_ifs <;> rfl
    rw [hcts]
    congr 1
    apply List.filter_congr
    intro ct _
    cases hmail : ct.email with
    | none => rfl
    | some e =>
      by_cases he : e.isEmpty = true
      · have hnm : e ∉ nonEmptyEmails company1 := by
          intro hmem
          have hfalse := isEmpty_false_of_mem_nonEmptyEmails company1 e hmem
          rw [he] at hfalse
          cases hfalse
        simp [he, hnm]
      · simp at he
        simp [he]
  · intro h
    simp only [_merge_companies]
    split_ifs <;> simp_all
  · intro h1 h2
    simp only [_merge_companies]
    split_ifs <;> simp_all
  · intro h
    simp only [_merge_companies]
    split_ifs <;> simp_all
  · intro h1 h2
    simp only [_merge_companies]
    split_ifs <;> simp_all
  · intro h
    simp only [_merge_companies]
    split_ifs <;> simp_all
  · intro h1 h2
    simp only [_merge_companies]
    split_ifs <;> simp_all

/-- Witness for C2: on concrete records, A's populated revenue survives
the merge, B fills A's missing employee_count, the duplicate-email contact
of B is dropped while its new and email-less contacts are appended, and
both provenance tags are present. -/
theorem merge_preserves_fields_witness :
    (_merge_companies mergeA mergeB).revenue = some 5
    ∧ (_merge_companies mergeA mergeB).employee_count = some 9
    ∧ (_merge_companies mergeA mergeB).contacts =
        [mkContact "e@a.com", mkContact "f@a.com", { name := "x" }]
    ∧ ("s1" ∈ (_merge_companies mergeA mergeB).source
        ∧ "s2" ∈ (_merge_companies mergeA mergeB).source) := by
  have h := merge_preserves_fields mergeA mergeB
  refine ⟨?_, ?_, ?_, ?_, ?_⟩
  · rw [h.2.2.1 (by decide)]
    decide
  · rw [h.2.2.2.2.2.1 (by decide) (by decide)]
    decide
  · rw [h.2.1]
    decide
  · exact (h.1 "s1").mpr (Or.inl (by decide))
  · exact (h.1 "s2").mpr (Or.inr (by decide))

/-- Counterexample for C3: two records, each carrying five contacts with
pairwise distinct emails and sharing one key, merge under the Deduplicator
into a single record carrying ten contacts, so the 5-cap does not hold at
the Deduplicator stage. -/
theorem dedup_contact_cap_counterexample :
    dedupA.contacts.length ≤ 5
    ∧ dedupB.contacts.length ≤ 5
    ∧ ¬ (∀ c ∈ deduplicate_companies [dedupA, dedupB], c.contacts.length ≤ 5) := by
  decide

/-- C3 amended: the Contact Resolver caps its parsed output at 5 contacts,
but the Deduplicator merge does not truncate: it can grow the kept
record's contact list up to the sum of both lists' lengths, hence up to 10
when each input carries at most 5 contacts. -/
theorem merge_contact_cap_amended (company1 company2 : Company)
    (h1 : company1.contacts.length ≤ 5) (h2 : company2.contacts.length ≤ 5) :
    (_merge_companies company1 company2).contacts.length ≤ 10
    ∧ ∀ (data : HunterData) (target_titles : List String),
        (_parse_hunter_contacts data target_titles).length ≤ 5 := by
  constructor
  · rw [(merge_preserves_fields company1 company2).2.1, List.length_append]
    have hfilter := List.length_filter_le (fun contact =>
      match contact.email with
      | none => true
      | some e => e.isEmpty || !(nonEmptyEmails company1).contains e) company2.contacts
    omega
  · intro data target_titles
    simp only [_parse_hunter_contacts]
    exact List.length_take_le 5 _

/-- Witness for C3's amended claim: the counterexample records (5 contacts
each) merge to exactly 10 ≤ 10 contacts, and a parse of a 6-entry Hunter
response stays at 5 contacts. -/
theorem merge_contact_cap_amended_witness :
    (_merge_companies dedupA dedupB).contacts.length ≤ 10
    ∧ (_parse_hunter_contacts
        { emails := [ { position := some "CTO", value := some "a@x.com" }
          , { position := some "CTO", value := some "b@x.com" }
          , { position := some "CTO", value := some "c@x.com" }
          , { position := some "CTO", value := some "d@x.com" }
          , { position := some "CTO", value := some "e@x.com" }
          , { position := some "CTO", value := some "f@x.com" } ] }
        ["CTO"]).length ≤ 5 := by
  have h := merge_contact_cap_amended dedupA dedupB (by decide) (by decide)
  exact ⟨h.1, h.2 _ ["CTO"]⟩

/-! ## Attribute estimator theorems -/

/-- Counterexample for C5: a record entering the Attribute Estimator with
the non-empty tech_stack ["Rust"] (and a non-empty job title) leaves with
tech_stack ["Python", "R"]: the populated field is overwritten. -/
theorem estimator_overwrites_tech_stack :
    enrichSample.tech_stack = ["Rust"]
    ∧ (enrichStep {} enrichSample).tech_stack = ["Python", "R"]
    ∧ (enrichStep {} enrichSample).tech_stack ≠ enrichSample.tech_stack := by
  decide

/-- C5 amended: for every oracle, the Attribute Estimator never overwrites
a populated (truthy) employee_count, revenue or funding_stage, re-derives
industry only when it is empty or the generic "Technology", always sets
smart_enriched, and leaves name, domain, location, contacts, signals,
source and confidence untouched — but tech_stack is recomputed from the
job title whenever the lower-cased job title is non-empty, even when
tech_stack was already populated (and is kept only when the job title is
empty). -/
theorem smart_enricher_frame (o : RandomOracle) (company : Company) :
    (truthyInt company.employee_count = true →
      (enrichStep o company).employee_count = company.employee_count)
    ∧ (truthyRat company.revenue = true →
      (enrichStep o company).revenue = company.revenue)
    ∧ (truthyStr company.funding_stage = true →
      (enrichStep o company).funding_stage = company.funding_stage)
    ∧ (company.industry.isEmpty = false → company.industry ≠ "Technology" →
      (enrichStep o company).industry = company.industry)
    ∧ (enrichStep o company).smart_enriched = true
    ∧ ((pyLower company.signals.job_title).isEmpty = true →
      (enrichStep o company).tech_stack = company.tech_stack)
    ∧ ((pyLower company.signals.job_title).isEmpty = false →
      (enrichStep o company).tech_stack =
        _infer_tech_stack (pyLower company.signals.job_title))
    ∧ (enrichStep o company).company_name = company.company_name
    ∧ (enrichStep o company).domain = company.domain
    ∧ (enrichStep o company).location = company.location
    ∧ (enrichStep o company).contacts = company.contacts
    ∧ (enrichStep o company).signals = company.signals
    ∧ (enrichStep o company).source = company.source
    ∧ (enrichStep o company).confidence = company.confidence := by
  refine ⟨?_, ?_, ?_, ?_, ?_, ?_, ?_, ?_, ?_, ?_, ?_, ?_, ?_, ?_⟩
  · intro h
    simp [enrichStep, _estimate_from_job_data, applyEnriched, h] <;> (split_ifs <;> rfl)
  · intro h
    simp [enrichStep, _estimate_from_job_data, applyEnriched, h] <;> (split_ifs <;> rfl)
  · intro h
    simp [enrichStep, _estimate_from_job_data, applyEnriched, h] <;> (split_ifs <;> rfl)
  · intro h1 h2
    simp [enrichStep, _estimate_from_job_data, applyEnriched, h1, h2] <;> (split_ifs <;> rfl)
  · simp [enrichStep, _estimate_from_job_data, applyEnriched] <;> (split_ifs <;> rfl)
  · intro h
    simp [enrichStep, _estimate_from_job_data, applyEnriched, h] <;> (split_ifs <;> rfl)
  · intro h
    simp [enrichStep, _estimate_from_job_data, applyEnriched, h] <;> (split_ifs <;> rfl)
  · simp [enrichStep, _estimate_from_job_data, applyEnriched] <;> (split_ifs <;> rfl)
  · simp [enrichStep, _estimate_from_job_data, applyEnriched] <;> (split_ifs <;> rfl)
  · simp [enrichStep, _estimate_from_job_data, applyEnriched] <;> (split_ifs <;> rfl)
  · simp [enrichStep, _estimate_from_job_data, applyEnriched] <;> (split_ifs <;> rfl)
  · simp [enrichStep, _estimate_from_job_data, applyEnriched] <;> (split_ifs <;> rfl)
  · simp [enrichStep, _estimate_from_job_data, applyEnriched] <;> (split_ifs <;> rfl)
  · simp [enrichStep, _estimate_from_job_data, applyEnriched] <;> (split_ifs <;> rfl)

/-- Witness for C5's amended claim: on the populated sample record every
protected field survives while tech_stack is recomputed. -/
theorem smart_enricher_frame_witness :
    (enrichStep {} enrichSample).employee_count = some 7
    ∧ (enrichStep {} enrichSample).revenue = some 3
    ∧ (enrichStep {} enrichSample).funding_stage = some "Seed"
    ∧ (enrichStep {} enrichSample).industry = "FinTech"
    ∧ (enrichStep {} enrichSample).smart_enriched = true := by
  have h := smart_enricher_frame {} enrichSample
  refine ⟨?_, ?_, ?_, ?_, h.2.2.2.2.1⟩
  · rw [h.1 (by decide)]
    decide
  · rw [h.2.1 (by decide)]
    decide
  · rw [h.2.2.1 (by decide)]
    decide
  · rw [h.2.2.2.1 (by decide) (by decide)]
    decide

/-! ## Contact resolver theorems -/

theorem foldl_hunterParseStep (target_titles : List String) (h : target_titles ≠ [])
    (emails : List RawEmail) (acc : List Contact) :
    emails.foldl (hunterParseStep target_titles) acc =
      acc ++ (emails.filter (fun e =>
        (target_titles.any (fun title =>
          strContains (pyLower (e.position.getD "")) (pyLower title)))
        && !(e.value.getD "").isEmpty)).map hunterContactOf := by
  have hne : target_titles.isEmpty = false := by
    cases target_titles with
    | nil => exact absurd rfl h
    | cons t ts => rfl
  induction emails generalizing acc with
  | nil => simp
  | cons e es ih =>
    rw [List.foldl_cons, ih, List.filter_cons]
    by_cases ht : (target_titles.any (fun title =>
        strContains (pyLower (e.position.getD "")) (pyLower title))) = true
    · by_cases hv : (e.value.getD "").isEmpty = true
      · simp [hunterParseStep, hne, ht, hv]
      · simp only [Bool.not_eq_true] at hv
        simp [hunterParseStep, hne, ht, hv]
    · simp only [Bool.not_eq_true] at ht
      simp [hunterParseStep, hne, ht]

/-- C6: for every directory response and non-empty target-title list, the
parsed output consists exactly of the response entries whose position text
case-insensitively contains some target title and whose email is
non-empty, each transformed by hunterContactOf (full name from the trimmed
first+last concatenation, confidence = raw integer / 100, verified flag
set), truncated to the first 5 such entries; in particular every parsed
contact carries the verified flag and the output has at most 5 entries. -/
theorem parse_hunter_contacts_spec (data : HunterData) (target_titles : List String)
    (h : target_titles ≠ []) :
    _parse_hunter_contacts data target_titles =
      ((data.emails.filter (fun e =>
        (target_titles.any (fun title =>
          strContains (pyLower (e.position.getD "")) (pyLower title)))
        && !(e.value.getD "").isEmpty)).map hunterContactOf).take 5
    ∧ (∀ c ∈ _parse_hunter_contacts data target_titles, c.hunter_verified = true)
    ∧ (_parse_hunter_contacts data target_titles).length ≤ 5 := by
  have heq : _parse_hunter_contacts data target_titles =
      ((data.emails.filter (fun e =>
        (target_titles.any (fun title =>
          strContains (pyLower (e.position.getD "")) (pyLower title)))
        && !(e.value.getD "").isEmpty)).map hunterContactOf).take 5 := by
    simp only [_parse_hunter_contacts]
    rw [foldl_hunterParseStep target_titles h data.emails []]
    rfl
  refine ⟨heq, ?_, ?_⟩
  · intro c hc
    rw [heq] at hc
    have hc2 := List.take_subset 5 _ hc
    obtain ⟨e, _, rfl⟩ := List.mem_map.mp hc2
    rfl
  · simp only [_parse_hunter_contacts]
    exact List.length_take_le 5 _

/-- Witness for C6: on a concrete three-entry response (one matching CTO,
one non-matching intern, one matching entry without an email) with two
target titles, exactly the CTO entry survives, verified, within the cap. -/
theorem parse_hunter_contacts_spec_witness :
    (∀ c ∈ _parse_hunter_contacts hunterSample ["CTO", "VP Engineering"],
      c.hunter_verified = true)
    ∧ (_parse_hunter_contacts hunterSample ["CTO", "VP Engineering"]).length ≤ 5
    ∧ (_parse_hunter_contacts hunterSample ["CTO", "VP Engineering"]).map
        (fun c => c.name) = ["John Smith"] := by
  have h := parse_hunter_contacts_spec hunterSample ["CTO", "VP Engineering"]
    (by decide)
  exact ⟨h.2.1, h.2.2, by decide⟩

/-- C7: the Contact Resolver maps its per-record body over the batch; that
body leaves a record unchanged when its domain is missing, empty, or does
not end in ".com", and likewise when the lookup returns no contacts; when
the gate passes and the lookup returns one or more contacts, the only
modification is replacing the contacts field with the lookup result. -/
theorem hunter_enrich_frame (find_emails : String → List Contact)
    (companies : List Company) (company : Company) :
    enrich_companies_with_contacts find_emails companies =
      companies.map (hunterEnrichStep find_emails)
    ∧ (company.domain = none → hunterEnrichStep find_emails company = company)
    ∧ (∀ d : String, company.domain = some d →
        (d.isEmpty = true ∨ pyEndsWith d ".com" = false) →
        hunterEnrichStep find_emails company = company)
    ∧ (∀ d : String, company.domain = some d → d.isEmpty = false →
        pyEndsWith d ".com" = true → find_emails d = [] →
        hunterEnrichStep find_emails company = company)
    ∧ (∀ d : String, company.domain = some d → d.isEmpty = false →
        pyEndsWith d ".com" = true → find_emails d ≠ [] →
        hunterEnrichStep find_emails company =
          { company with contacts := find_emails d }) := by
  refine ⟨rfl, ?_, ?_, ?_, ?_⟩
  · intro h
    have hemp : ("" : String).isEmpty = true := rfl
    simp [hunterEnrichStep, h, hemp]
  · intro d hd hfail
    rcases hfail with hfail | hfail <;> simp [hunterEnrichStep, hd, hfail]
  · intro d hd hne hcom hemp
    simp [hunterEnrichStep, hd, hne, hcom, hemp]
  · intro d hd hne hcom hsome
    have hemp : (find_emails d).isEmpty = false := by
      cases hfe : find_emails d with
      | nil => exact absurd hfe hsome
      | cons c cs => rfl
    simp [hunterEnrichStep, hd, hne, hcom, hemp]

/-- Witness for C7: a .org domain is skipped unchanged; a .com domain with
a non-empty lookup gets exactly its contacts replaced. -/
theorem hunter_enrich_frame_witness :
    hunterEnrichStep hunterFind hunterGateFail = hunterGateFail
    ∧ hunterEnrichStep hunterFind hunterGateOk =
        { hunterGateOk with contacts := hunterFind "z.com" } := by
  have h1 := (hunter_enrich_frame hunterFind [] hunterGateFail).2.2.1 "z.org"
    rfl (Or.inr (by decide))
  have h2 := (hunter_enrich_frame hunterFind [] hunterGateOk).2.2.2.2 "z.com"
    rfl (by decide) (by decide) (by decide)
  exact ⟨h1, h2⟩

/-! ## Pipeline error-handling theorem -/

/-- C10: when the ICP's geography key is present and maps to an empty
list, filter generation raises an IndexError (indexing the first entry)
and the pipeline's top-level exception handler converts the failure into
an empty result, whatever the collaborators would have returned. -/
theorem empty_geography_returns_empty (collab : Collaborators) (icp_config : ICP)
    (h : icp_config.geography = some []) :
    search_prospects collab icp_config = []
    ∧ _generate_serpapi_filters icp_config = Except.error PyError.indexError := by
  constructor
  · simp [search_prospects, _generate_serpapi_filters, h]
  · simp [_generate_serpapi_filters, h]

/-- Witness for C10: the default collaborators and an ICP whose geography
is the empty list produce the empty prospect list. -/
theorem empty_geography_returns_empty_witness :
    search_prospects {} { geography := some [] } = [] :=
  (empty_geography_returns_empty {} { geography := some [] } rfl).1

/-! ## Deduplicator idempotence -/

/-- An entry of the dedup dict is stored under its own company's key. -/
def EntryOk (kv : String × Company) : Prop := kv.1 = _get_company_key kv.2

/-- The invariant the dedup dict maintains, stated entry by entry against
the prefix of earlier entries: each entry is stored under its own key,
its key does not occur among the earlier entries, and a fuzzy-name lookup
of its company against the earlier entries yields no match or the falsy
empty-string key — exactly the situations in which the loop inserts a
record as new rather than merging it. -/
def InvFrom : List (String × Company) → List (String × Company) → Prop
  | _, [] => True
  | pre, kv :: rest =>
      EntryOk kv
      ∧ (pre.any (fun e => e.1 = kv.1)) = false
      ∧ (_find_similar_company kv.2 pre = none
          ∨ _find_similar_company kv.2 pre = some "")
      ∧ InvFrom (pre ++ [kv]) rest

theorem merge_company_name (c1 c2 : Company) :
    (_merge_companies c1 c2).company_name = c1.company_name := by
  simp only [_merge_companies]
  split_ifs <;> rfl

theorem merge_domain (c1 c2 : Company) :
    (_merge_companies c1 c2).domain = c1.domain := by
  simp only [_merge_companies]
  split_ifs <;> rfl

theorem key_merge (c1 c2 : Company) :
    _get_company_key (_merge_companies c1 c2) = _get_company_key c1 := by
  simp only [_get_company_key, merge_domain, merge_company_name]

theorem updater_fst (key : String) (c : Company) (kv : String × Company) :
    (if kv.1 = key then (kv.1, _merge_companies kv.2 c) else kv).1 = kv.1 := by
  by_cases hk : kv.1 = key <;> simp [hk]

theorem updater_name (key : String) (c : Company) (kv : String × Company) :
    (if kv.1 = key then (kv.1, _merge_companies kv.2 c) else kv).2.company_name =
      kv.2.company_name := by
  by_cases hk : kv.1 = key <;> simp [hk, merge_company_name]

theorem updater_entryOk (key : String) (c : Company) (kv : String × Company)
    (hok : EntryOk kv) :
    EntryOk (if kv.1 = key then (kv.1, _merge_companies kv.2 c) else kv) := by
  by_cases hk : kv.1 = key
  · rw [if_pos hk]
    show kv.1 = _get_company_key (_merge_companies kv.2 c)
    rw [key_merge]
    exact hok
  · rw [if_neg hk]
    exact hok

/-- find? commutes with mapping a function that does not change the
predicate's verdict. -/
theorem find?_map_of_pred_inv {α : Type} (g : α → α) (p : α → Bool)
    (hg : ∀ a, p (g a) = p a) (l : List α) :
    (l.map g).find? p = (l.find? p).map g := by
  induction l with
  | nil => rfl
  | cons a rest ih =>
    rw [List.map_cons]
    by_cases hp : p a = true
    · rw [List.find?_cons_of_pos _ (by rw [hg]; exact hp),
        List.find?_cons_of_pos _ hp]
      rfl
    · rw [List.find?_cons_of_neg _ (by rw [hg]; exact hp),
        List.find?_cons_of_neg _ hp, ih]

/-- The fuzzy lookup only reads the scanned entries' keys and names, and
updateValue preserves both, so the lookup result is unchanged. -/
theorem find_similar_updateValue (company : Company) (key : String) (c : Company)
    (pre : List (String × Company)) :
    _find_similar_company company
        (updateValue key (fun e => _merge_companies e c) pre) =
      _find_similar_company company pre := by
  simp only [_find_similar_company, updateValue]
  rw [find?_map_of_pred_inv]
  · cases hf : pre.find? (fun kv =>
        85 ≤ fuzzRatio (pyLower company.company_name)
          (pyLower kv.2.company_name)) with
    | none => rfl
    | some kv =>
      show some (if kv.1 = key then (kv.1, _merge_companies kv.2 c) else kv).1 =
        some kv.1
      rw [updater_fst]
  · intro a
    dsimp only
    rw [updater_name]

/-- The fuzzy lookup only depends on the incoming company's name. -/
theorem find_similar_congr (c1 c2 : Company) (h : c1.company_name = c2.company_name)
    (l : List (String × Company)) :
    _find_similar_company c1 l = _find_similar_company c2 l := by
  simp only [_find_similar_company, h]

theorem any_key_updateValue (k key : String) (c : Company)
    (pre : List (String × Company)) :
    ((updateValue key (fun e => _merge_companies e c) pre).any (fun e => e.1 = k)) =
      (pre.any (fun e => e.1 = k)) := by
  simp only [updateValue, List.any_map]
  congr 1
  funext e
  dsimp only [Function.comp]
  rw [updater_fst]

theorem updateValue_cons (key : String) (c : Company) (kv : String × Company)
    (rest : List (String × Company)) :
    updateValue key (fun e => _merge_companies e c) (kv :: rest) =
      (if kv.1 = key then (kv.1, _merge_companies kv.2 c) else kv) ::
        updateValue key (fun e => _merge_companies e c) rest := rfl

/-- A merge pass over the whole dict preserves the invariant: it changes
no key and no company name, which is all the invariant reads. -/
theorem invFrom_updateValue (key : String) (c : Company)
    (post : List (String × Company)) :
    ∀ pre : List (String × Company), InvFrom pre post →
      InvFrom (updateValue key (fun e => _merge_companies e c) pre)
        (updateValue key (fun e => _merge_companies e c) post) := by
  induction post with
  | nil =>
    intro pre _
    exact trivial
  | cons kv rest ih =>
    intro pre h
    obtain ⟨hok, hany, hsim, hrest⟩ := h
    rw [updateValue_cons]
    refine ⟨updater_entryOk key c kv hok, ?_, ?_, ?_⟩
    · simp only [updater_fst]
      rw [any_key_updateValue]
      exact hany
    · rw [find_similar_updateValue,
        find_similar_congr _ kv.2 (updater_name key c kv)]
      exact hsim
    · have happ : updateValue key (fun e => _merge_companies e c) (pre ++ [kv]) =
          updateValue key (fun e => _merge_companies e c) pre ++
            [if kv.1 = key then (kv.1, _merge_companies kv.2 c) else kv] := by
        simp [updateValue]
      rw [← happ]
      exact ih (pre ++ [kv]) hrest

/-- Appending a record whose key is fresh and whose fuzzy lookup against
the whole dict is falsy preserves the invariant. -/
theorem invFrom_append_one (kv : String × Company) (post : List (String × Company)) :
    ∀ pre : List (String × Company), InvFrom pre post →
    EntryOk kv →
    ((pre ++ post).any (fun e => e.1 = kv.1)) = false →
    (_find_similar_company kv.2 (pre ++ post) = none
      ∨ _find_similar_company kv.2 (pre ++ post) = some "") →
    InvFrom pre (post ++ [kv]) := by
  induction post with
  | nil =>
    intro pre _ hok hany hsim
    refine ⟨hok, ?_, ?_, trivial⟩
    · simpa using hany
    · simpa using hsim
  | cons kv0 rest ih =>
    intro pre h hok hany hsim
    obtain ⟨hok0, hany0, hsim0, hrest⟩ := h
    refine ⟨hok0, hany0, hsim0, ?_⟩
    apply ih (pre ++ [kv0]) hrest hok
    · have happ : (pre ++ [kv0]) ++ rest = pre ++ (kv0 :: rest) := by simp
      rw [happ]
      exact hany
    · have happ : (pre ++ [kv0]) ++ rest = pre ++ (kv0 :: rest) := by simp
      rw [happ]
      exact hsim

theorem dedupStep_inv (acc : List (String × Company)) (company : Company)
    (hinv : InvFrom [] acc) : InvFrom [] (dedupStep acc company) := by
  simp only [dedupStep]
  by_cases hany : (acc.any (fun kv => kv.1 = _get_company_key company)) = true
  · rw [if_pos hany]
    have h := invFrom_updateValue (_get_company_key company) company acc [] hinv
    simpa [updateValue] using h
  · rw [if_neg hany]
    by_cases hsim : truthyStr (_find_similar_company company acc) = true
    · rw [if_pos hsim]
      have h := invFrom_updateValue
        ((_find_similar_company company acc).getD "") company acc [] hinv
      simpa [updateValue] using h
    · rw [if_neg hsim]
      apply invFrom_append_one (_get_company_key company, company) acc [] hinv rfl
      · have hfalse : (acc.any (fun kv => kv.1 = _get_company_key company)) = false := by
          cases hb : acc.any (fun kv => kv.1 = _get_company_key company) with
          | false => rfl
          | true => exact absurd hb hany
        simpa using hfalse
      · cases hfs : _find_similar_company company acc with
        | none =>
          left
          simpa using hfs
        | some sk =>
          right
          rw [hfs] at hsim
          have h1 : sk.isEmpty = true := by
            cases hb : sk.isEmpty with
            | true => rfl
            | false => exact absurd (by simp [truthyStr, hb]) hsim
          have hsk : sk = "" := (String.isEmpty_iff sk).mp h1
          subst hsk
          simpa using hfs

theorem dedupInv_foldl (companies : List Company) (acc : List (String × Company))
    (hinv : InvFrom [] acc) : InvFrom [] (companies.foldl dedupStep acc) := by
  induction companies generalizing acc with
  | nil => exact hinv
  | cons c cs ih => exact ih _ (dedupStep_inv acc c hinv)

theorem foldl_dedupStep_no_merge (post : List (String × Company)) :
    ∀ pre : List (String × Company), InvFrom pre post →
    (post.map Prod.snd).foldl dedupStep pre = pre ++ post := by
  induction post with
  | nil =>
    intro pre _
    simp
  | cons kv post ih =>
    intro pre h
    obtain ⟨hok, hany, hsim, hrest⟩ := h
    have hkey : _get_company_key kv.2 = kv.1 := hok.symm
    have hstep : dedupStep pre kv.2 = pre ++ [kv] := by
      have h0 : ("" : String).isEmpty = true := rfl
      simp only [dedupStep, hkey, hany]
      rcases hsim with hs | hs <;> simp [hs, truthyStr, h0]
    rw [List.map_cons, List.foldl_cons, hstep]
    rw [ih (pre ++ [kv]) hrest]
    simp

/-- C4: the Deduplicator is idempotent: applying deduplicate_companies to
its own output returns the same list of records. After one pass each kept
record's key is absent among the earlier kept records and a fuzzy lookup
of it against them yields no match or the falsy empty-string key — the
situations in which the loop inserts rather than merges — so the second
pass re-inserts every record unchanged and no exact-key or fuzzy merge
occurs. -/
theorem dedup_idempotent (companies : List Company) :
    deduplicate_companies (deduplicate_companies companies) =
      deduplicate_companies companies := by
  have hinv : InvFrom [] (companies.foldl dedupStep []) :=
    dedupInv_foldl companies [] trivial
  unfold deduplicate_companies
  rw [foldl_dedupStep_no_merge (companies.foldl dedupStep []) [] hinv]
  simp

end ProspectSearch
